import Mathlib

/-!
Shallow embedding of the model-loading and tokenization core:
the embedded (GGML) tokenizer, token-bias table and prompt resolver from
`crates/llm-base/src/tokenizer.rs`, and the GGUF container loader from
`crates/ggml/src/format/gguf/mod.rs`.

Conventions of the embedding:
* Rust byte strings (`Vec<u8>`, `&[u8]`, `&str` contents) are `List Nat`.
* `usize`/`u32`/`u64` become `Nat`; overflow is irrelevant at the sizes the
  code manipulates (scores are bounded by `len * max_token_length^2`, and
  token ids are dense indices).
* `f32` scores and biases are carried opaquely; the code never computes with
  them, so they are represented as `Rat` (exact, decidable equality).
* `HashMap` is represented by an association list with insert-overwrite
  semantics (`hmInsert` / `hmLookup`); the entry sets coincide.
* A Rust function that can panic is total here with an `Option` result
  (`none` = panic) or an `RResult` result (`.panicked` = panic, `.diverged`
  = non-termination of a source loop).
-/

/-- RResult mirrors the possible outcomes of running a fallible Rust
function: a value, a recoverable `Err`, a panic (index out of bounds,
failed assertion, integer underflow, division/remainder by zero), or
non-termination of a loop. -/
inductive RResult (ε α : Type) where
  | ok (a : α)
  | err (e : ε)
  | panicked
  | diverged
deriving DecidableEq

/-- Association-list rendering of `HashMap::insert`: overwrite the value at
an existing key, otherwise append the new entry. -/
def hmInsert {κ β : Type} [DecidableEq κ] : List (κ × β) → κ → β → List (κ × β)
  | [], k, v => [(k, v)]
  | (k', v') :: rest, k, v =>
    if k' = k then (k, v) :: rest else (k', v') :: hmInsert rest k v

/-- Association-list rendering of `HashMap::get`. -/
def hmLookup {κ β : Type} [DecidableEq κ] : List (κ × β) → κ → Option β
  | [], _ => none
  | (k', v') :: rest, k => if k' = k then some v' else hmLookup rest k

theorem hmLookup_hmInsert {κ β : Type} [DecidableEq κ] (m : List (κ × β)) (k k' : κ) (v : β) :
    hmLookup (hmInsert m k v) k' = if k' = k then some v else hmLookup m k' := by
  induction m with
  | nil =>
    by_cases h : k = k'
    · subst h; simp [hmInsert, hmLookup]
    · simp [hmInsert, hmLookup, h, Ne.symm h]
  | cons p rest ih =>
    obtain ⟨pk, pv⟩ := p
    by_cases hpk : pk = k
    · subst hpk
      by_cases hk' : k' = pk
      · subst hk'; simp [hmInsert, hmLookup]
      · simp [hmInsert, hmLookup, hk', Ne.symm hk']
    · by_cases hk1 : pk = k'
      · subst hk1
        simp [hmInsert, hmLookup, hpk, Ne.symm hpk]
      · simp [hmInsert, hmLookup, hpk, hk1, ih]

/-- Folding a step function that preserves a predicate preserves it across
the whole `List.foldl`. -/
theorem foldl_preserve {α β : Type} (P : β → Prop) (f : β → α → β) :
    ∀ (l : List α) (b : β), (∀ b' a, a ∈ l → P b' → P (f b' a)) → P b → P (l.foldl f b)
  | [], _, _, hb => hb
  | a :: l, b, hf, hb =>
    foldl_preserve P f l (f b a) (fun b' x hx hb' => hf b' x (List.mem_cons_of_mem a hx) hb')
      (hf b a (List.mem_cons_self a l) hb)

/-! ## Tokenizer data model (`crates/llm-base/src/tokenizer.rs`) -/

/-- Token is a byte string (`pub(crate) type Token = Vec<u8>`). -/
abbrev Token := List Nat

/-- TokenScore stands for the `f32` score; the core never computes with it,
it is only stored and copied, so an exact carrier is used. -/
abbrev TokenScore := Rat

/-- TokenizationError from `tokenizer.rs` (payloads irrelevant to the
claims are dropped: `TokenizationFailed` carries a boxed error message). -/
inductive TokenizationError where
  | tokenizationFailed
  | invalidTokenId (id : Nat)
deriving DecidableEq

/-- EmbeddedTokenizer: the built-in GGML tokenizer state. -/
structure EmbeddedTokenizer where
  id_to_token : List Token
  id_to_token_score : List TokenScore
  token_to_id : List (Token × Nat)
  max_token_length : Nat
deriving DecidableEq

namespace EmbeddedTokenizer

/-- EmbeddedTokenizer::default(): all collections empty, max length 0. -/
def default : EmbeddedTokenizer :=
  { id_to_token := [], id_to_token_score := [], token_to_id := [], max_token_length := 0 }

/-- push_token: appends a token under the strict append-order contract.
`none` models the two panics (the `assert_eq!` on the parallel index
lengths, and the explicit panic when `id` is not the next dense id). -/
def push_token (t : EmbeddedTokenizer) (id : Nat) (content : Token) (score : TokenScore) :
    Option EmbeddedTokenizer :=
  if t.id_to_token.length ≠ t.id_to_token_score.length then none
  else if t.id_to_token.length ≠ id ∨ t.id_to_token_score.length ≠ id then none
  else some
    { id_to_token := t.id_to_token ++ [content]
      id_to_token_score := t.id_to_token_score ++ [score]
      token_to_id := hmInsert t.token_to_id content id
      max_token_length := max t.max_token_length content.length }

end EmbeddedTokenizer

/-- Built t holds when `t` is reachable from the default (empty) tokenizer
by successful `push_token` calls: the vocabulary-builder lifecycle. -/
inductive Built : EmbeddedTokenizer → Prop
  | base : Built EmbeddedTokenizer.default
  | step {t t' : EmbeddedTokenizer} {id : Nat} {c : Token} {s : TokenScore} :
      Built t → t.push_token id c s = some t' → Built t'

/-- buildVocab pushes a list of (content, score) pairs with dense ids
starting at `i`, mirroring a loader's read loop. -/
def buildVocabFrom (i : Nat) (t : EmbeddedTokenizer) :
    List (Token × TokenScore) → Option EmbeddedTokenizer
  | [] => some t
  | (c, s) :: rest =>
    match t.push_token i c s with
    | none => none
    | some t' => buildVocabFrom (i + 1) t' rest

/-- buildVocab builds a vocabulary from scratch in append order. -/
def buildVocab (l : List (Token × TokenScore)) : Option EmbeddedTokenizer :=
  buildVocabFrom 0 EmbeddedTokenizer.default l

namespace EmbeddedTokenizer

/-- dpStep is the inner body of the forward DP pass of `tokenize` for one
start position `i`: try every candidate length `1..=min(len-i,
max_token_length)`, and overwrite `(score, prev)` at `i + sub_len` on
strict improvement. -/
def dpStep (t : EmbeddedTokenizer) (text : List Nat) (sp : List Nat × List Nat) (i : Nat) :
    List Nat × List Nat :=
  let maxLen := min (text.length - i) t.max_token_length
  (List.range' 1 maxLen).foldl
    (fun sp subLen =>
      let sub := (text.drop i).take subLen
      match hmLookup t.token_to_id sub with
      | none => sp
      | some token =>
        let tokenScore := sub.length * sub.length
        let localScore := sp.1.getD i 0 + tokenScore
        let next := i + subLen
        if sp.1.getD next 0 < localScore then
          (sp.1.set next localScore, sp.2.set next token)
        else sp)
    sp

/-- dpForward runs the whole forward DP pass: `score` and `prev` of size
`len + 1`, both initialized to 0. -/
def dpForward (t : EmbeddedTokenizer) (text : List Nat) : List Nat × List Nat :=
  (List.range text.length).foldl (dpStep t text)
    (List.replicate (text.length + 1) 0, List.replicate (text.length + 1) 0)

/-- tokenizeBack is the backward pass of `tokenize`: walk from position `i`
towards 0 following `prev`, failing on the 0 sentinel.  A fuel argument
makes the Rust `while` loop total: `.diverged` marks the infinite loop a
zero-length token would cause, `.panicked` marks the index-out-of-bounds /
usize-underflow panics possible on a malformed vocabulary state. -/
def tokenizeBack (id_to_token : List Token) (prev : List Nat) :
    Nat → Nat → List (Token × Nat) → RResult TokenizationError (List (Token × Nat))
  | fuel, i, res =>
    if i = 0 then .ok res
    else
      match fuel with
      | 0 => .diverged
      | fuel + 1 =>
        let token_id := prev.getD i 0
        if token_id = 0 then .err .tokenizationFailed
        else
          match id_to_token[token_id]? with
          | none => .panicked
          | some token =>
            if token.length ≤ i then
              tokenizeBack id_to_token prev fuel (i - token.length) (res ++ [(token, token_id)])
            else .panicked

/-- tokenize: SentencePiece-style DP segmentation (`EmbeddedTokenizer::tokenize`).
`bos` appends the reserved pair `([], 1)` before the final reversal, which
places it first. -/
def tokenize (t : EmbeddedTokenizer) (text : List Nat) (bos : Bool) :
    RResult TokenizationError (List (Token × Nat)) :=
  let len := text.length
  let sp := dpForward t text
  match tokenizeBack t.id_to_token sp.2 (len + 1) len [] with
  | .ok res =>
    let res := if bos then res ++ [([], 1)] else res
    .ok res.reverse
  | .err e => .err e
  | .panicked => .panicked
  | .diverged => .diverged

/-- decode: concatenate the bytes of each id in order
(`EmbeddedTokenizer::decode`); ids equal to 1 are skipped when
`skip_special_tokens` is set.  `none` models the index-out-of-bounds panic
on an id outside the vocabulary. -/
def decode (t : EmbeddedTokenizer) (tokens : List Nat) (skip_special_tokens : Bool) :
    Option (List Nat) :=
  match tokens with
  | [] => some []
  | tok :: rest =>
    if skip_special_tokens && tok == 1 then t.decode rest skip_special_tokens
    else
      match t.id_to_token[tok]? with
      | none => none
      | some bytes => (t.decode rest skip_special_tokens).map (fun r => bytes ++ r)

end EmbeddedTokenizer

/-- Prompt: raw text or an explicit token-id sequence. -/
inductive Prompt where
  | text (s : List Nat)
  | tokens (ts : List Nat)

/-- findEmptyToken is the scan performed by `Prompt::to_tokens` on an
explicit id list: `tokens.iter().find(|t| vocab.token(*t).is_empty())`.
The id-indexed lookup `vocab.token` panics on an out-of-range id. -/
def findEmptyToken (vocab : EmbeddedTokenizer) :
    List Nat → RResult TokenizationError (Option Nat)
  | [] => .ok none
  | t :: rest =>
    match vocab.id_to_token[t]? with
    | none => .panicked
    | some tok => if tok.length = 0 then .ok (some t) else findEmptyToken vocab rest

/-- to_tokens (`Prompt::to_tokens`): a text prompt is tokenized through the
facade and only the ids kept; an explicit id list is scanned left to right
for the first id whose single-token lookup is empty.  The facade is
instantiated at its embedded variant. -/
def Prompt.to_tokens (p : Prompt) (vocab : EmbeddedTokenizer) (beginning_of_sentence : Bool) :
    RResult TokenizationError (List Nat) :=
  match p with
  | .text s =>
    match vocab.tokenize s beginning_of_sentence with
    | .ok ps => .ok (ps.map (fun q => q.2))
    | .err e => .err e
    | .panicked => .panicked
    | .diverged => .diverged
  | .tokens ts =>
    match findEmptyToken vocab ts with
    | .ok (some t) => .err (.invalidTokenId t)
    | .ok none => .ok ts
    | .err e => .err e
    | .panicked => .panicked
    | .diverged => .diverged

/-! ## Token bias table -/

/-- insertByKey inserts `p` into a list before the first element whose id
is not strictly smaller: combined with `sortByKey` this is a stable sort
by id, the behavior of `sort_by_cached_key` (documented stable). -/
def insertByKey (p : Nat × Rat) : List (Nat × Rat) → List (Nat × Rat)
  | [] => [p]
  | q :: rest => if q.1 < p.1 then q :: insertByKey p rest else p :: q :: rest

/-- sortByKey: stable sort of (id, bias) pairs by id ascending. -/
def sortByKey : List (Nat × Rat) → List (Nat × Rat)
  | [] => []
  | p :: rest => insertByKey p (sortByKey rest)

/-- dedupGo keeps `p` and drops the following elements whose id equals
`p.1`, recursing at the next distinct element. -/
def dedupGo (p : Nat × Rat) : List (Nat × Rat) → List (Nat × Rat)
  | [] => [p]
  | q :: rest => if p.1 = q.1 then dedupGo p rest else p :: dedupGo q rest

/-- dedupByKey mirrors `Vec::dedup_by_key`: collapse each run of
consecutive equal ids to its first element. -/
def dedupByKey : List (Nat × Rat) → List (Nat × Rat)
  | [] => []
  | p :: rest => dedupGo p rest

/-- TokenBias: sorted sparse per-token bias table. -/
structure TokenBias where
  entries : List (Nat × Rat)
deriving DecidableEq

/-- TokenBias::new: stable-sort by id, then dedup consecutive equal ids
keeping the first. -/
def TokenBias.new (v : List (Nat × Rat)) : TokenBias :=
  { entries := dedupByKey (sortByKey v) }

/-! ## GGUF container loader (`crates/ggml/src/format/gguf/mod.rs`)

The orchestration (`Gguf::load`, `TensorInfo::read_name_value`) is in the
repository.  Its leaf helpers (`util::read_u32`/`read_u64`/`read_length`/
`read_string`, `ContainerType::read`, `metadata.rs`, `ElementType`) are not
under `src/`; they are modelled from the spec where so marked. -/

/-- GgufLoadError from `gguf/mod.rs`.  Payloads that the claims never
inspect (IO details, the offending string, the broken-invariant message)
are dropped. -/
inductive GgufLoadError where
  | invalidMagic (magic : List Nat)
  | invalidFormatVersion (version : Nat)
  | ioError
  | invalidUtf8
  | invalidIntegerConversion
  | unsupportedElementType (tensor_name : List Nat) (ftype : Nat)
  | invariantBroken

/-- MetadataValue.  Modelled from the spec: `metadata.rs` is not under
`src/`; the spec describes "a tagged union of scalar kinds
(unsigned/signed integers of multiple widths, 32/64-bit floats, boolean,
UTF-8 string) and an array-of-any-of-those-kinds variant".  Signed
integers and floats are carried as their raw little-endian payload; the
core never computes with them. -/
inductive MetadataValue where
  | uint8 (n : Nat)
  | int8 (raw : Nat)
  | uint16 (n : Nat)
  | int16 (raw : Nat)
  | uint32 (n : Nat)
  | int32 (raw : Nat)
  | float32 (raw : Nat)
  | bool (b : Bool)
  | string (s : List Nat)
  | array (tag : Nat) (vs : List MetadataValue)
  | uint64 (n : Nat)
  | int64 (raw : Nat)
  | float64 (raw : Nat)

/-- as_uint32.  Modelled from the spec: the alignment override key is used
only "if present and of that type" (uint32), "defaulting to 32 if absent
or of the wrong type". -/
def MetadataValue.as_uint32 : MetadataValue → Option Nat
  | .uint32 n => some n
  | _ => none

/-- TensorInfo: one tensor descriptor.  The element type is kept as the
raw accepted code, since the closed enumeration itself lives outside
`src/`. -/
structure TensorInfo where
  dimensions : List Nat
  element_type : Nat
  offset : Nat

/-- Gguf: the aggregate container (metadata map, tensor descriptor map,
tensor-data start offset). -/
structure Gguf where
  metadata : List (List Nat × MetadataValue)
  tensor_infos : List (List Nat × TensorInfo)
  tensor_data_position : Nat

/-- readBytes: take `n` bytes at cursor `pos` from the stream; a short
read is an I/O error.  Modelled from the spec: the reader helpers are not
under `src/`. -/
def readBytes (input : List Nat) (pos n : Nat) : Except GgufLoadError (List Nat × Nat) :=
  if pos + n ≤ input.length then .ok ((input.drop pos).take n, pos + n) else .error .ioError

/-- leNat decodes a little-endian byte sequence into a natural number. -/
def leNat (bs : List Nat) : Nat := bs.foldr (fun b acc => b + 256 * acc) 0

/-- readU8: one byte. -/
def readU8 (input : List Nat) (pos : Nat) : Except GgufLoadError (Nat × Nat) :=
  (readBytes input pos 1).map (fun r => (leNat r.1, r.2))

/-- readU16: 2-byte little-endian integer. -/
def readU16 (input : List Nat) (pos : Nat) : Except GgufLoadError (Nat × Nat) :=
  (readBytes input pos 2).map (fun r => (leNat r.1, r.2))

/-- readU32: 4-byte little-endian integer. -/
def readU32 (input : List Nat) (pos : Nat) : Except GgufLoadError (Nat × Nat) :=
  (readBytes input pos 4).map (fun r => (leNat r.1, r.2))

/-- readU64: 8-byte little-endian integer. -/
def readU64 (input : List Nat) (pos : Nat) : Except GgufLoadError (Nat × Nat) :=
  (readBytes input pos 8).map (fun r => (leNat r.1, r.2))

/-- readLength: a length field, 4 or 8 bytes per the active mode.
Modelled from the spec: "tensor_count | 4 or 8 bytes | per mode". -/
def readLength (use_64_bit_length : Bool) (input : List Nat) (pos : Nat) :
    Except GgufLoadError (Nat × Nat) :=
  if use_64_bit_length then readU64 input pos else readU32 input pos

/-- utf8Cont: a UTF-8 continuation byte (0x80..=0xBF). -/
def utf8Cont (b : Nat) : Bool := 0x80 <= b && b <= 0xBF

/-- utf8Step: one transition of the standard UTF-8 acceptance automaton
(shortest forms only, no surrogates, max U+10FFFF), the validation Rust's
`String::from_utf8` performs.  State 0 expects a leading byte; states 1-3
expect that many plain continuation bytes; states 4-7 expect the
constrained first continuation of E0, ED, F0, F4 respectively. -/
def utf8Step (st b : Nat) : Option Nat :=
  match st with
  | 0 =>
    if b < 0x80 then some 0
    else if 0xC2 <= b && b <= 0xDF then some 1
    else if b = 0xE0 then some 4
    else if (0xE1 <= b && b <= 0xEC) || b = 0xEE || b = 0xEF then some 2
    else if b = 0xED then some 5
    else if b = 0xF0 then some 6
    else if 0xF1 <= b && b <= 0xF3 then some 3
    else if b = 0xF4 then some 7
    else none
  | 1 => if utf8Cont b then some 0 else none
  | 2 => if utf8Cont b then some 1 else none
  | 3 => if utf8Cont b then some 2 else none
  | 4 => if 0xA0 <= b && b <= 0xBF then some 1 else none
  | 5 => if 0x80 <= b && b <= 0x9F then some 1 else none
  | 6 => if 0x90 <= b && b <= 0xBF then some 2 else none
  | 7 => if 0x80 <= b && b <= 0x8F then some 2 else none
  | _ => none

/-- utf8Run: run the automaton; the byte list is accepted when it ends in
the start state. -/
def utf8Run (st : Nat) : List Nat → Bool
  | [] => st == 0
  | b :: rest =>
    match utf8Step st b with
    | none => false
    | some st2 => utf8Run st2 rest

/-- utf8Valid: UTF-8 well-formedness of a byte sequence. -/
def utf8Valid (l : List Nat) : Bool := utf8Run 0 l

/-- readString: a length-prefixed UTF-8 string.  Modelled from the spec:
"decodes one length-prefixed UTF-8 string (fails with an encoding error on
invalid UTF-8)". -/
def readString (use_64_bit_length : Bool) (input : List Nat) (pos : Nat) :
    Except GgufLoadError (List Nat × Nat) := do
  let (n, p) ← readLength use_64_bit_length input pos
  let (bs, p') ← readBytes input p n
  if utf8Valid bs then pure (bs, p') else .error .invalidUtf8

/-- ggufMagic: the reserved 4-byte magic constant, the bytes of "GGUF". -/
def ggufMagic : List Nat := [71, 71, 85, 70]

/-- containerTypeRead.  Modelled from the spec: "Reads a fixed-width magic
value; fails with `InvalidMagic` carrying the raw bytes read if it does
not match the expected constant", then reads the 4-byte version field of
the container type. -/
def containerTypeRead (input : List Nat) (pos : Nat) : Except GgufLoadError (Nat × Nat) := do
  let (magic, p) ← readBytes input pos 4
  if magic = ggufMagic then readU32 input p
  else .error (.invalidMagic magic)

/-- readValue.  Modelled from the spec: one typed metadata value; "reads a
type tag, then dispatches to the scalar or array reader for that tag.
Array reading recurses: element type tag, element count (using the active
length width), then that many elements of the named type"; "the tag read
from the stream must match a known kind".  Tags follow the GGUF
numbering (0..12 with 9 = array); per the spec's wire table a type tag is
one byte.  The fuel bounds array nesting depth (each level consumes at
least one byte, so `input.length + 1` always suffices). -/
def readValue (use_64_bit_length : Bool) (input : List Nat) :
    Nat → Nat → Nat → Except GgufLoadError (MetadataValue × Nat)
  | fuel, tag, pos =>
    match tag with
    | 0 => (readU8 input pos).map (fun r => (.uint8 r.1, r.2))
    | 1 => (readU8 input pos).map (fun r => (.int8 r.1, r.2))
    | 2 => (readU16 input pos).map (fun r => (.uint16 r.1, r.2))
    | 3 => (readU16 input pos).map (fun r => (.int16 r.1, r.2))
    | 4 => (readU32 input pos).map (fun r => (.uint32 r.1, r.2))
    | 5 => (readU32 input pos).map (fun r => (.int32 r.1, r.2))
    | 6 => (readU32 input pos).map (fun r => (.float32 r.1, r.2))
    | 7 => (readU8 input pos).map (fun r => (.bool (r.1 != 0), r.2))
    | 8 => (readString use_64_bit_length input pos).map (fun r => (.string r.1, r.2))
    | 9 =>
      match fuel with
      | 0 => .error .ioError
      | fuel + 1 => do
        let (etag, p) ← readU8 input pos
        let (n, p') ← readLength use_64_bit_length input p
        let step := fun (acc : Except GgufLoadError (List MetadataValue × Nat)) (_ : Nat) => do
          let (vs, q) ← acc
          let (v, q') ← readValue use_64_bit_length input fuel etag q
          pure (vs ++ [v], q')
        let (vs, p'') ← (List.range n).foldl step (.ok ([], p'))
        pure (.array etag vs, p'')
    | 10 => (readU64 input pos).map (fun r => (.uint64 r.1, r.2))
    | 11 => (readU64 input pos).map (fun r => (.int64 r.1, r.2))
    | 12 => (readU64 input pos).map (fun r => (.float64 r.1, r.2))
    | _ => .error .invariantBroken

/-- readKeyValue.  Modelled from the spec (`MetadataValue::read_key_value`
lives in the absent `metadata.rs`): a length-prefixed string key, a
one-byte type tag, then the typed value. -/
def readKeyValue (use_64_bit_length : Bool) (input : List Nat) (pos : Nat) :
    Except GgufLoadError ((List Nat × MetadataValue) × Nat) := do
  let (key, p) ← readString use_64_bit_length input pos
  let (tag, p') ← readU8 input p
  let (v, p'') ← readValue use_64_bit_length input (input.length + 1) tag p'
  pure ((key, v), p'')

/-- readMetadataKVs: the metadata loop of `Gguf::load`; later duplicate
keys overwrite earlier ones (`HashMap::insert`). -/
def readMetadataKVs (use_64_bit_length : Bool) (input : List Nat) :
    Nat → Nat → List (List Nat × MetadataValue) →
    Except GgufLoadError (List (List Nat × MetadataValue) × Nat)
  | 0, pos, acc => .ok (acc, pos)
  | n + 1, pos, acc =>
    match readKeyValue use_64_bit_length input pos with
    | .error e => .error e
    | .ok ((k, v), p) => readMetadataKVs use_64_bit_length input n p (hmInsert acc k v)

/-- readLengthsN: the dimensions loop of `TensorInfo::read_name_value`. -/
def readLengthsN (use_64_bit_length : Bool) (input : List Nat) :
    Nat → Nat → Except GgufLoadError (List Nat × Nat)
  | 0, pos => .ok ([], pos)
  | n + 1, pos => do
    let (d, p) ← readLength use_64_bit_length input pos
    let (ds, p') ← readLengthsN use_64_bit_length input n p
    pure (d :: ds, p')

/-- read_name_value (`TensorInfo::read_name_value`): tensor name, 4-byte
dimension count, the dimensions, the 4-byte element-type code (checked
against the closed enumeration, abstracted as the predicate `sup` since
the enumeration lives outside `src/`; an unrecognized code fails carrying
the tensor name and the raw code), then the 8-byte offset. -/
def TensorInfo.read_name_value (sup : Nat → Bool) (use_64_bit_length : Bool)
    (input : List Nat) (pos : Nat) :
    Except GgufLoadError ((List Nat × TensorInfo) × Nat) := do
  let (name, p) ← readString use_64_bit_length input pos
  let (dimension_count, p1) ← readU32 input p
  let (dimensions, p2) ← readLengthsN use_64_bit_length input dimension_count p1
  let (code, p3) ← readU32 input p2
  if sup code then do
    let (offset, p4) ← readU64 input p3
    pure ((name, { dimensions := dimensions, element_type := code, offset := offset }), p4)
  else .error (.unsupportedElementType name code)

/-- readTensorInfos: the tensor-descriptor loop of `Gguf::load`. -/
def readTensorInfos (sup : Nat → Bool) (use_64_bit_length : Bool) (input : List Nat) :
    Nat → Nat → List (List Nat × TensorInfo) →
    Except GgufLoadError (List (List Nat × TensorInfo) × Nat)
  | 0, pos, acc => .ok (acc, pos)
  | n + 1, pos, acc =>
    match TensorInfo.read_name_value sup use_64_bit_length input pos with
    | .error e => .error e
    | .ok ((k, v), p) => readTensorInfos sup use_64_bit_length input n p (hmInsert acc k v)

/-- gaKey: the bytes of the reserved alignment override key
"general.alignment". -/
def gaKey : List Nat :=
  [103, 101, 110, 101, 114, 97, 108, 46, 97, 108, 105, 103, 110, 109, 101, 110, 116]

/-- alignedOffset: `pos + (alignment - (pos % alignment)) % alignment`,
the rounding-up computed at the end of `Gguf::load` (meaningful only for
a nonzero alignment; `Gguf.load` panics before calling it otherwise). -/
def alignedOffset (pos alignment : Nat) : Nat :=
  pos + (alignment - pos % alignment) % alignment

/-- load (`Gguf::load`): header, counts, metadata, alignment lookup,
tensor descriptors, aligned tensor-data offset.  `.panicked` models the
`u64` remainder-by-zero panic when the effective alignment is 0. -/
def Gguf.load (sup : Nat → Bool) (input : List Nat) : RResult GgufLoadError Gguf :=
  match containerTypeRead input 0 with
  | .error e => .err e
  | .ok (version, pos) =>
    if version = 1 ∨ version = 2 then
      let use_64_bit_length := version == 2
      match readLength use_64_bit_length input pos with
      | .error e => .err e
      | .ok (tensor_count, p1) =>
        match readLength use_64_bit_length input p1 with
        | .error e => .err e
        | .ok (metadata_kv_count, p2) =>
          match readMetadataKVs use_64_bit_length input metadata_kv_count p2 [] with
          | .error e => .err e
          | .ok (metadata, p3) =>
            let alignment := ((hmLookup metadata gaKey).bind MetadataValue.as_uint32).getD 32
            match readTensorInfos sup use_64_bit_length input tensor_count p3 [] with
            | .error e => .err e
            | .ok (tensor_infos, p4) =>
              if alignment = 0 then .panicked
              else .ok
                { metadata := metadata
                  tensor_infos := tensor_infos
                  tensor_data_position := alignedOffset p4 alignment }
    else .err (.invalidFormatVersion version)

/-! ## Vocabulary-builder invariants -/

/-- maxTokenLen: the maximum byte length over a list of tokens, 0 for the
empty list (the fold performed by repeated `push_token` calls). -/
def maxTokenLen (l : List Token) : Nat := l.foldl (fun m tok => max m tok.length) 0

theorem maxTokenLen_append (l : List Token) (c : Token) :
    maxTokenLen (l ++ [c]) = max (maxTokenLen l) c.length := by
  simp [maxTokenLen, List.foldl_append]

/-- RevSound t: every reverse-index entry points to a forward-index slot
holding exactly that byte string. -/
def RevSound (t : EmbeddedTokenizer) : Prop :=
  ∀ tok id, hmLookup t.token_to_id tok = some id → t.id_to_token[id]? = some tok

theorem push_token_some {t t' : EmbeddedTokenizer} {id : Nat} {c : Token} {s : TokenScore}
    (h : t.push_token id c s = some t') :
    t.id_to_token.length = t.id_to_token_score.length ∧ id = t.id_to_token.length ∧
    t' = { id_to_token := t.id_to_token ++ [c]
           id_to_token_score := t.id_to_token_score ++ [s]
           token_to_id := hmInsert t.token_to_id c id
           max_token_length := max t.max_token_length c.length } := by
  unfold EmbeddedTokenizer.push_token at h
  by_cases h1 : t.id_to_token.length ≠ t.id_to_token_score.length
  · rw [if_pos h1] at h; exact absurd h (by simp)
  · by_cases h2 : t.id_to_token.length ≠ id ∨ t.id_to_token_score.length ≠ id
    · rw [if_neg h1, if_pos h2] at h; exact absurd h (by simp)
    · rw [if_neg h1, if_neg h2] at h
      push_neg at h1 h2
      exact ⟨h1, h2.1.symm, (Option.some.inj h).symm⟩

theorem built_lengths {t : EmbeddedTokenizer} (hb : Built t) :
    t.id_to_token.length = t.id_to_token_score.length := by
  induction hb with
  | base => rfl
  | step _ hpush _ =>
    obtain ⟨hlen, _, ht'⟩ := push_token_some hpush
    subst ht'
    simp [hlen]

theorem built_maxTokenLen {t : EmbeddedTokenizer} (hb : Built t) :
    t.max_token_length = maxTokenLen t.id_to_token := by
  induction hb with
  | base => rfl
  | step _ hpush ih =>
    obtain ⟨_, _, ht'⟩ := push_token_some hpush
    subst ht'
    simp [maxTokenLen_append, ih]

theorem built_revSound {t : EmbeddedTokenizer} (hb : Built t) : RevSound t := by
  induction hb with
  | base => intro tok id h; simp [EmbeddedTokenizer.default, hmLookup] at h
  | @step t0 t1 id0 c0 s0 _ hpush ih =>
    obtain ⟨_, hid, ht'⟩ := push_token_some hpush
    subst ht'
    intro tok i h
    simp only at h ⊢
    rw [hmLookup_hmInsert] at h
    by_cases htok : tok = c0
    · subst htok
      rw [if_pos rfl] at h
      obtain rfl : id0 = i := Option.some.inj h
      subst hid
      exact List.getElem?_concat_length t0.id_to_token tok
    · rw [if_neg htok] at h
      have hold := ih tok i h
      have hi : i < t0.id_to_token.length := List.getElem?_eq_some.mp hold |>.1
      rw [List.getElem?_append_left hi]
      exact hold

/-! ## Forward/backward pass invariants of the DP tokenizer -/

theorem getD_set_zero (l : List Nat) (n j v : Nat) :
    (l.set n v).getD j 0 = if n = j ∧ n < l.length then v else l.getD j 0 := by
  rw [List.getD_eq_getElem?_getD, List.getD_eq_getElem?_getD, List.getElem?_set]
  by_cases h : n = j
  · subst h
    by_cases h2 : n < l.length
    · simp [h2]
    · simp [h2, List.getElem?_eq_none (le_of_not_lt h2)]
  · simp [h]

theorem getD_replicate_zero (n j : Nat) : (List.replicate n (0 : Nat)).getD j 0 = 0 := by
  rw [List.getD_eq_getElem?_getD, List.getElem?_replicate]
  split <;> rfl

/-- PrevInv: every nonzero entry of the back-pointer array records a token
of the vocabulary that genuinely matches the text slice ending at that
position. -/
def PrevInv (t : EmbeddedTokenizer) (text : List Nat) (prev : List Nat) : Prop :=
  ∀ j tid, prev.getD j 0 = tid → tid ≠ 0 →
    ∃ tok, t.id_to_token[tid]? = some tok ∧ 1 ≤ tok.length ∧ tok.length ≤ j ∧
      (text.drop (j - tok.length)).take tok.length = tok

theorem dpStep_prevInv {t : EmbeddedTokenizer} {text : List Nat} (i : Nat)
    (sp : List Nat × List Nat) (hrs : RevSound t) (hP : PrevInv t text sp.2) :
    PrevInv t text (EmbeddedTokenizer.dpStep t text sp i).2 := by
  unfold EmbeddedTokenizer.dpStep
  refine foldl_preserve (fun sp : List Nat × List Nat => PrevInv t text sp.2) _ _ _ ?_ hP
  intro sp' subLen hmem hP'
  have hrange := List.mem_range'_1.mp hmem
  have hsub1 : 1 ≤ subLen := hrange.1
  have hsuble : subLen ≤ text.length - i := by
    have h2 := hrange.2
    have h3 : min (text.length - i) t.max_token_length ≤ text.length - i :=
      min_le_left _ _
    omega
  have hlensub : ((text.drop i).take subLen).length = subLen := by
    rw [List.length_take, List.length_drop]
    omega
  simp only
  cases hlk : hmLookup t.token_to_id ((text.drop i).take subLen) with
  | none => exact hP'
  | some tid0 =>
    dsimp only
    by_cases hcmp : sp'.1.getD (i + subLen) 0 <
        sp'.1.getD i 0 + ((text.drop i).take subLen).length * ((text.drop i).take subLen).length
    · rw [if_pos hcmp]
      intro j tid hj htid
      rw [getD_set_zero] at hj
      by_cases hcond : i + subLen = j ∧ i + subLen < sp'.2.length
      · rw [if_pos hcond] at hj
        subst hj
        refine ⟨(text.drop i).take subLen, hrs _ _ hlk, ?_, ?_, ?_⟩
        · omega
        · omega
        · rw [hlensub]
          have hji : j - subLen = i := by omega
          rw [hji]
      · rw [if_neg hcond] at hj
        exact hP' j tid hj htid
    · rw [if_neg hcmp]
      exact hP'

theorem dpForward_prevInv {t : EmbeddedTokenizer} (text : List Nat) (hrs : RevSound t) :
    PrevInv t text (EmbeddedTokenizer.dpForward t text).2 := by
  unfold EmbeddedTokenizer.dpForward
  refine foldl_preserve (fun sp : List Nat × List Nat => PrevInv t text sp.2) _ _ _
    (fun sp i _ hP => dpStep_prevInv i sp hrs hP) ?_
  intro j tid hj htid
  exact absurd (hj.symm.trans (getD_replicate_zero _ _)) htid

theorem tokenizeBack_ok {t : EmbeddedTokenizer} {text prev : List Nat}
    (hinv : PrevInv t text prev) :
    ∀ (fuel i : Nat) (res out : List (Token × Nat)),
      EmbeddedTokenizer.tokenizeBack t.id_to_token prev fuel i res = .ok out →
      ∃ extra, out = res ++ extra ∧
        ((extra.reverse.map (fun p => p.1)).flatten = text.take i) ∧
        ∀ p ∈ extra, t.id_to_token[p.2]? = some p.1 := by
  intro fuel
  induction fuel with
  | zero =>
    intro i res out hok
    unfold EmbeddedTokenizer.tokenizeBack at hok
    by_cases hi0 : i = 0
    · rw [if_pos hi0] at hok
      subst hi0
      obtain rfl : res = out := RResult.ok.inj hok
      exact ⟨[], by simp, by simp, by simp⟩
    · rw [if_neg hi0] at hok
      exact absurd hok (by simp)
  | succ fuel ih =>
    intro i res out hok
    unfold EmbeddedTokenizer.tokenizeBack at hok
    by_cases hi0 : i = 0
    · rw [if_pos hi0] at hok
      subst hi0
      obtain rfl : res = out := RResult.ok.inj hok
      exact ⟨[], by simp, by simp, by simp⟩
    · rw [if_neg hi0] at hok
      dsimp only at hok
      by_cases h0 : prev.getD i 0 = 0
      · rw [if_pos h0] at hok
        exact absurd hok (by simp)
      · rw [if_neg h0] at hok
        obtain ⟨tok, hgets, h1len, hlenle, hslice⟩ := hinv i (prev.getD i 0) rfl h0
        rw [hgets] at hok
        dsimp only at hok
        rw [if_pos hlenle] at hok
        obtain ⟨extra', hout, hflat, hmem⟩ := ih (i - tok.length) (res ++ [(tok, prev.getD i 0)]) out hok
        refine ⟨(tok, prev.getD i 0) :: extra', ?_, ?_, ?_⟩
        · rw [hout, List.append_assoc]
          rfl
        · rw [List.reverse_cons, List.map_append, List.flatten_append, hflat]
          have hsplit : text.take i =
              text.take (i - tok.length) ++ (text.drop (i - tok.length)).take tok.length := by
            rw [← List.take_add]
            congr 1
            omega
          rw [hsplit, hslice]
          simp
        · intro p hp
          rcases List.mem_cons.mp hp with hp1 | hp2
          · subst hp1
            exact hgets
          · exact hmem p hp2

theorem decode_pairs {t : EmbeddedTokenizer} :
    ∀ ps : List (Token × Nat), (∀ p ∈ ps, t.id_to_token[p.2]? = some p.1) →
      t.decode (ps.map (fun p => p.2)) false = some ((ps.map (fun p => p.1)).flatten) := by
  intro ps
  induction ps with
  | nil => intro _; rfl
  | cons p rest ih =>
    intro hmem
    have hp := hmem p (List.mem_cons_self p rest)
    have hrest := ih (fun q hq => hmem q (List.mem_cons_of_mem p hq))
    simp only [List.map_cons]
    unfold EmbeddedTokenizer.decode
    rw [hp]
    simp only [Bool.false_and, if_neg]
    rw [hrest]
    simp [List.flatten_cons]

theorem buildVocabFrom_built :
    ∀ (l : List (Token × TokenScore)) (i : Nat) (t t' : EmbeddedTokenizer),
      Built t → buildVocabFrom i t l = some t' → Built t' := by
  intro l
  induction l with
  | nil =>
    intro i t t' hb h
    unfold buildVocabFrom at h
    exact (Option.some.inj h) ▸ hb
  | cons p rest ih =>
    intro i t t' hb h
    obtain ⟨c, s⟩ := p
    unfold buildVocabFrom at h
    cases hp : t.push_token i c s with
    | none => rw [hp] at h; exact absurd h (by simp)
    | some t1 => rw [hp] at h; exact ih (i + 1) t1 t' (Built.step hb hp) h

theorem buildVocab_built (l : List (Token × TokenScore)) {t' : EmbeddedTokenizer}
    (h : buildVocab l = some t') : Built t' :=
  buildVocabFrom_built l 0 EmbeddedTokenizer.default t' Built.base h

/-- C1 (amended): for every vocabulary reachable from the empty tokenizer
by successful push_token appends and every byte text, whenever
`tokenize(text, false)` succeeds, passing the resulting token ids to
`decode(ids, false)` yields exactly the original byte sequence.  (The
claim's stronger form — that every fully segmentable text also makes
`tokenize` succeed — fails, because the backward pass reads back-pointer
value 0 as "unreachable" even when 0 is a legitimate token id; see the
counterexample.) -/
theorem c1_tokenize_decode_roundtrip {t : EmbeddedTokenizer} (hb : Built t)
    (text : List Nat) (res : List (Token × Nat))
    (h : t.tokenize text false = .ok res) :
    t.decode (res.map (fun p => p.2)) false = some text := by
  have hinv := dpForward_prevInv text (built_revSound hb)
  unfold EmbeddedTokenizer.tokenize at h
  cases hback : EmbeddedTokenizer.tokenizeBack t.id_to_token
      (EmbeddedTokenizer.dpForward t text).2 (text.length + 1) text.length [] with
  | ok res0 =>
    simp only [hback] at h
    obtain ⟨extra, hout, hflat, hmem⟩ := tokenizeBack_ok hinv _ _ _ _ hback
    have hres : res = extra.reverse := by
      have h1 := RResult.ok.inj h
      rw [← h1, hout]
      simp
    rw [hres]
    rw [decode_pairs extra.reverse (fun p hp => hmem p (List.mem_reverse.mp hp))]
    rw [hflat, List.take_length]
  | err e => simp only [hback] at h; exact absurd h (by simp)
  | panicked => simp only [hback] at h; exact absurd h (by simp)
  | diverged => simp only [hback] at h; exact absurd h (by simp)

/-- c1failVocab: a vocabulary whose only token is "a", holding token id 0
(built by `push_token(0, "a", score)`). -/
def c1failVocab : EmbeddedTokenizer :=
  { id_to_token := [[97]], id_to_token_score := [0],
    token_to_id := [([97], 0)], max_token_length := 1 }

/-- C1 counterexample: against the vocabulary {"a" ↦ id 0}, the text "a"
is fully segmentable (decoding [0] reproduces it), yet `tokenize("a",
false)` fails outright — token id 0 collides with the backward pass's
"unreachable" sentinel — so the claimed decode-of-tokenize reconstruction
is impossible for this vocabulary and text. -/
theorem c1_counterexample :
    buildVocab [([97], 0)] = some c1failVocab ∧
    c1failVocab.decode [0] false = some [97] ∧
    c1failVocab.tokenize [97] false = .err .tokenizationFailed :=
  ⟨rfl, rfl, rfl⟩

/-- c1vocab: the vocabulary ["x", "a", "b", "ab"] with ids 0..3. -/
def c1vocab : EmbeddedTokenizer :=
  { id_to_token := [[120], [97], [98], [97, 98]], id_to_token_score := [0, 0, 0, 0],
    token_to_id := [([120], 0), ([97], 1), ([98], 2), ([97, 98], 3)], max_token_length := 2 }

/-- C1 witness: the round-trip theorem applied to the concrete vocabulary
["x", "a", "b", "ab"] and text "ab": tokenize yields [("ab", 3)] and
decoding [3] restores "ab". -/
theorem c1_roundtrip_witness :
    c1vocab.tokenize [97, 98] false = .ok [([97, 98], 3)] ∧
    c1vocab.decode [3] false = some [97, 98] :=
  ⟨rfl, c1_tokenize_decode_roundtrip
    (buildVocab_built [([120], 0), ([97], 0), ([98], 0), ([97, 98], 0)] rfl)
    [97, 98] [([97, 98], 3)] rfl⟩


/-- C2 (amended): for any scores and any append order of {"a", "b", "ab"}
in which "ab" does not receive token id 0, tokenizing "ab" returns the
single-token segmentation [("ab", id of "ab")] — the DP prefers score
2*2 = 4 over 1+1 = 2.  (The two orders giving "ab" id 0 fail instead;
see the counterexample.) -/
theorem c2_tokenize_prefers_longest (s0 s1 s2 : TokenScore) (c0 c1 c2 : Token)
    (h : (c0 = [97] ∧ c1 = [98] ∧ c2 = [97, 98]) ∨
         (c0 = [97] ∧ c1 = [97, 98] ∧ c2 = [98]) ∨
         (c0 = [98] ∧ c1 = [97] ∧ c2 = [97, 98]) ∨
         (c0 = [98] ∧ c1 = [97, 98] ∧ c2 = [97])) :
    ∃ t i, buildVocab [(c0, s0), (c1, s1), (c2, s2)] = some t ∧
      hmLookup t.token_to_id [97, 98] = some i ∧
      t.tokenize [97, 98] false = .ok [([97, 98], i)] := by
  rcases h with ⟨h0, h1, h2⟩ | ⟨h0, h1, h2⟩ | ⟨h0, h1, h2⟩ | ⟨h0, h1, h2⟩ <;>
    subst h0 <;> subst h1 <;> subst h2
  · exact ⟨{ id_to_token := [[97], [98], [97, 98]], id_to_token_score := [s0, s1, s2],
             token_to_id := [([97], 0), ([98], 1), ([97, 98], 2)], max_token_length := 2 },
      2, rfl, rfl, rfl⟩
  · exact ⟨{ id_to_token := [[97], [97, 98], [98]], id_to_token_score := [s0, s1, s2],
             token_to_id := [([97], 0), ([97, 98], 1), ([98], 2)], max_token_length := 2 },
      1, rfl, rfl, rfl⟩
  · exact ⟨{ id_to_token := [[98], [97], [97, 98]], id_to_token_score := [s0, s1, s2],
             token_to_id := [([98], 0), ([97], 1), ([97, 98], 2)], max_token_length := 2 },
      2, rfl, rfl, rfl⟩
  · exact ⟨{ id_to_token := [[98], [97, 98], [97]], id_to_token_score := [s0, s1, s2],
             token_to_id := [([98], 0), ([97, 98], 1), ([97], 2)], max_token_length := 2 },
      1, rfl, rfl, rfl⟩

/-- c2failVocab: the vocabulary built in the order "ab", "a", "b", giving
"ab" token id 0. -/
def c2failVocab : EmbeddedTokenizer :=
  { id_to_token := [[97, 98], [97], [98]], id_to_token_score := [0, 0, 0],
    token_to_id := [([97, 98], 0), ([97], 1), ([98], 2)], max_token_length := 2 }

/-- C2 counterexample: with the append order "ab", "a", "b" (so "ab" holds
id 0), tokenizing "ab" does not return the single-token segmentation: the
DP stores back-pointer 0 for the winning match, the backward pass reads it
as the unreachable sentinel, and tokenization fails. -/
theorem c2_counterexample :
    buildVocab [([97, 98], 0), ([97], 0), ([98], 0)] = some c2failVocab ∧
    c2failVocab.tokenize [97, 98] false = .err .tokenizationFailed :=
  ⟨rfl, rfl⟩

/-- C2 witness: the amended theorem applied at the order "a", "b", "ab"
with zero scores. -/
theorem c2_witness :
    ∃ t i, buildVocab [([97], 0), ([98], 0), ([97, 98], 0)] = some t ∧
      hmLookup t.token_to_id [97, 98] = some i ∧
      t.tokenize [97, 98] false = .ok [([97, 98], i)] :=
  c2_tokenize_prefers_longest 0 0 0 [97] [98] [97, 98] (Or.inl ⟨rfl, rfl, rfl⟩)

theorem built_revExact_of_nodup {t : EmbeddedTokenizer} (hb : Built t) :
    t.id_to_token.Nodup →
    ∀ tok id, hmLookup t.token_to_id tok = some id ↔ t.id_to_token[id]? = some tok := by
  induction hb with
  | base =>
    intro _ tok id
    constructor
    · intro h; exact absurd h (by simp [EmbeddedTokenizer.default, hmLookup])
    · intro h; exact absurd h (by simp [EmbeddedTokenizer.default])
  | @step t0 t1 id0 c0 s0 _ hpush ih =>
    obtain ⟨_, hid, ht'⟩ := push_token_some hpush
    subst ht'
    intro hnd tok i
    simp only at hnd ⊢
    rw [List.nodup_append] at hnd
    have hnd0 : t0.id_to_token.Nodup := hnd.1
    have hc0 : c0 ∉ t0.id_to_token := fun hmem =>
      hnd.2.2 hmem (List.mem_singleton_self c0)
    rw [hmLookup_hmInsert]
    by_cases htok : tok = c0
    · subst htok
      rw [if_pos rfl]
      constructor
      · intro h
        obtain rfl : id0 = i := Option.some.inj h
        subst hid
        exact List.getElem?_concat_length t0.id_to_token tok
      · intro h
        rw [List.getElem?_append] at h
        by_cases hi : i < t0.id_to_token.length
        · rw [if_pos hi] at h
          exact absurd (List.getElem?_mem h) hc0
        · rw [if_neg hi] at h
          have hlt := (List.getElem?_eq_some.mp h).1
          simp only [List.length_singleton] at hlt
          have : i = t0.id_to_token.length := by omega
          rw [hid, this]
    · rw [if_neg htok]
      rw [ih hnd0 tok i]
      by_cases hi : i < t0.id_to_token.length
      · rw [List.getElem?_append, if_pos hi]
      · constructor
        · intro h
          have hlt := (List.getElem?_eq_some.mp h).1
          omega
        · intro h
          rw [List.getElem?_append, if_neg hi] at h
          exfalso
          apply htok
          have hlt := (List.getElem?_eq_some.mp h).1
          simp only [List.length_singleton] at hlt
          have hi0 : i - t0.id_to_token.length = 0 := by omega
          rw [hi0] at h
          exact (Option.some.inj h).symm

/-- C3 (amended): after every sequence of successful push_token calls from
the default tokenizer, the forward and score indexes have equal length and
max_token_length is the maximum byte length over the stored tokens; and
provided the pushed byte-strings are pairwise distinct, the reverse index
holds exactly the entries of the forward index.  (Without distinctness the
exactness clause fails — `HashMap::insert` keeps only the last id for a
repeated byte-string — see the counterexample.) -/
theorem c3_builder_invariants {t : EmbeddedTokenizer} (hb : Built t) :
    t.id_to_token.length = t.id_to_token_score.length ∧
    t.max_token_length = maxTokenLen t.id_to_token ∧
    (t.id_to_token.Nodup →
      ∀ tok id, hmLookup t.token_to_id tok = some id ↔ t.id_to_token[id]? = some tok) :=
  ⟨built_lengths hb, built_maxTokenLen hb, built_revExact_of_nodup hb⟩

/-- c3failVocab: the state after pushing the byte-string "a" twice (ids 0
and 1). -/
def c3failVocab : EmbeddedTokenizer :=
  { id_to_token := [[97], [97]], id_to_token_score := [0, 0],
    token_to_id := [([97], 1)], max_token_length := 1 }

/-- C3 counterexample: pushing the same byte-string "a" at ids 0 and 1
succeeds, yet the reverse index then holds a single entry mapping "a" to
1, so forward entry (0, "a") has no reverse counterpart: the reverse index
does not contain exactly the entries of the forward index. -/
theorem c3_counterexample :
    buildVocab [([97], 0), ([97], 0)] = some c3failVocab ∧
    c3failVocab.id_to_token[0]? = some [97] ∧
    hmLookup c3failVocab.token_to_id [97] = some 1 ∧
    ¬ (∀ tok id, hmLookup c3failVocab.token_to_id tok = some id ↔
        c3failVocab.id_to_token[id]? = some tok) := by
  refine ⟨rfl, rfl, rfl, fun hiff => ?_⟩
  have h1 : hmLookup c3failVocab.token_to_id [97] = some 0 := (hiff [97] 0).mpr rfl
  have h2 : (0 : Nat) = 1 := Option.some.inj ((rfl : hmLookup c3failVocab.token_to_id [97] = some 1).symm.trans h1).symm
  exact absurd h2 (by decide)

/-- c3vocab: the vocabulary ["a", "bc"] with ids 0, 1. -/
def c3vocab : EmbeddedTokenizer :=
  { id_to_token := [[97], [98, 99]], id_to_token_score := [0, 0],
    token_to_id := [([97], 0), ([98, 99], 1)], max_token_length := 2 }

/-- C3 witness: the amended invariants instantiated at the distinct-token
vocabulary ["a", "bc"]. -/
theorem c3_witness :
    c3vocab.id_to_token.length = c3vocab.id_to_token_score.length ∧
    c3vocab.max_token_length = maxTokenLen c3vocab.id_to_token ∧
    (hmLookup c3vocab.token_to_id [98, 99] = some 1 ↔ c3vocab.id_to_token[1]? = some [98, 99]) := by
  have h := c3_builder_invariants (buildVocab_built [([97], 0), ([98, 99], 0)] rfl)
  exact ⟨h.1, h.2.1, h.2.2 (by decide) [98, 99] 1⟩

/-- C4: calling push_token with an id that is not the current length of
the forward index terminates abnormally (a panic, not a recoverable
error), for every tokenizer state. -/
theorem c4_push_token_panics (t : EmbeddedTokenizer) (id : Nat) (c : Token) (s : TokenScore)
    (h : id ≠ t.id_to_token.length) :
    t.push_token id c s = none := by
  unfold EmbeddedTokenizer.push_token
  by_cases h1 : t.id_to_token.length ≠ t.id_to_token_score.length
  · rw [if_pos h1]
  · rw [if_neg h1, if_pos (Or.inl (Ne.symm h))]

/-- C4 witness: appending token id 5 to the empty vocabulary panics. -/
theorem c4_witness :
    5 ≠ EmbeddedTokenizer.default.id_to_token.length ∧
    EmbeddedTokenizer.default.push_token 5 [97] 0 = none :=
  ⟨by decide, c4_push_token_panics EmbeddedTokenizer.default 5 [97] 0 (by decide)⟩

/-! ## Prompt resolution (C9) -/

theorem findEmptyToken_in_range (vocab : EmbeddedTokenizer) :
    ∀ ts : List Nat, (∀ u ∈ ts, u < vocab.id_to_token.length) →
      findEmptyToken vocab ts =
        .ok (ts.find? (fun u => (vocab.id_to_token.getD u []).isEmpty)) := by
  intro ts
  induction ts with
  | nil => intro _; rfl
  | cons u rest ih =>
    intro hin
    have hu : u < vocab.id_to_token.length := hin u (List.mem_cons_self u rest)
    unfold findEmptyToken
    rw [List.getElem?_eq_getElem hu]
    have hgetD : vocab.id_to_token.getD u [] = vocab.id_to_token[u] := by
      rw [List.getD_eq_getElem?_getD, List.getElem?_eq_getElem hu]
      rfl
    rw [List.find?_cons]
    dsimp only
    by_cases hemp : vocab.id_to_token[u].length = 0
    · have hpred : (vocab.id_to_token.getD u []).isEmpty = true := by
        rw [hgetD]
        exact List.isEmpty_iff_length_eq_zero.mpr hemp
      rw [if_pos hemp, hpred]
    · have hpred : (vocab.id_to_token.getD u []).isEmpty = false := by
        rw [hgetD]
        cases hcase : vocab.id_to_token[u].isEmpty
        · rfl
        · exact absurd (List.isEmpty_iff_length_eq_zero.mp hcase) hemp
      rw [if_neg hemp, hpred]
      exact ih (fun x hx => hin x (List.mem_cons_of_mem u hx))

/-- C9 (amended): for every explicit token-id list all of whose ids are in
range for the vocabulary, `Prompt::to_tokens` scans left to right and
returns InvalidTokenId carrying the first id whose single-token lookup is
the empty byte-string, or the id list unchanged when no id decodes to
empty bytes.  (Without the in-range restriction the scan panics on an
out-of-range id instead of returning the list; see the counterexample.) -/
theorem c9_to_tokens_scan (vocab : EmbeddedTokenizer) (ts : List Nat) (bos : Bool)
    (hin : ∀ u ∈ ts, u < vocab.id_to_token.length) :
    Prompt.to_tokens (.tokens ts) vocab bos =
      match ts.find? (fun u => (vocab.id_to_token.getD u []).isEmpty) with
      | some u => .err (.invalidTokenId u)
      | none => .ok ts := by
  unfold Prompt.to_tokens
  dsimp only
  rw [findEmptyToken_in_range vocab ts hin]
  cases ts.find? (fun u => (vocab.id_to_token.getD u []).isEmpty) <;> rfl

/-- C9 counterexample: the prompt [5] against the empty vocabulary: no id
decodes to an empty byte-string (the lookup of id 5 panics before
producing anything), yet to_tokens does not return the list unchanged —
it panics with an index out of bounds. -/
theorem c9_counterexample :
    Prompt.to_tokens (.tokens [5]) EmbeddedTokenizer.default false = .panicked ∧
    Prompt.to_tokens (.tokens [5]) EmbeddedTokenizer.default false ≠ .ok [5] :=
  ⟨rfl, by decide⟩

/-- c9vocab: the vocabulary ["a", ""], whose token id 1 holds genuinely
empty bytes. -/
def c9vocab : EmbeddedTokenizer :=
  { id_to_token := [[97], []], id_to_token_score := [0, 0],
    token_to_id := [([97], 0), ([], 1)], max_token_length := 1 }

/-- C9 witness: the amended scan applied to the vocabulary ["a", ""]:
prompt [0, 1] fails at the first empty-decoding id 1, prompt [0, 0] is
returned unchanged. -/
theorem c9_witness :
    Prompt.to_tokens (.tokens [0, 1]) c9vocab false = .err (.invalidTokenId 1) ∧
    Prompt.to_tokens (.tokens [0, 0]) c9vocab false = .ok [0, 0] := by
  have h1 := c9_to_tokens_scan c9vocab [0, 1] false (by decide)
  have h2 := c9_to_tokens_scan c9vocab [0, 0] false (by decide)
  exact ⟨h1, h2⟩

/-! ## Token-bias table lemmas (C6) -/

theorem mem_insertByKey (p x : Nat × Rat) :
    ∀ l : List (Nat × Rat), x ∈ insertByKey p l ↔ x = p ∨ x ∈ l := by
  intro l
  induction l with
  | nil => simp [insertByKey]
  | cons q rest ih =>
    unfold insertByKey
    by_cases hq : q.1 < p.1
    · rw [if_pos hq]
      simp only [List.mem_cons, ih]
      tauto
    · rw [if_neg hq]
      simp only [List.mem_cons]

theorem pairwise_le_insertByKey (p : Nat × Rat) :
    ∀ l : List (Nat × Rat), l.Pairwise (fun a b => a.1 ≤ b.1) →
      (insertByKey p l).Pairwise (fun a b => a.1 ≤ b.1) := by
  intro l
  induction l with
  | nil => intro _; exact List.pairwise_singleton _ p
  | cons q rest ih =>
    intro h
    rw [List.pairwise_cons] at h
    unfold insertByKey
    by_cases hq : q.1 < p.1
    · rw [if_pos hq]
      rw [List.pairwise_cons]
      constructor
      · intro x hx
        rcases (mem_insertByKey p x rest).mp hx with hx1 | hx2
        · subst hx1
          exact le_of_lt hq
        · exact h.1 x hx2
      · exact ih h.2
    · rw [if_neg hq]
      rw [List.pairwise_cons]
      constructor
      · intro x hx
        rcases List.mem_cons.mp hx with hx1 | hx2
        · subst hx1
          omega
        · exact le_trans (by omega) (h.1 x hx2)
      · rw [List.pairwise_cons]
        exact h
    
theorem pairwise_le_sortByKey :
    ∀ v : List (Nat × Rat), (sortByKey v).Pairwise (fun a b => a.1 ≤ b.1) := by
  intro v
  induction v with
  | nil => exact List.Pairwise.nil
  | cons p rest ih => exact pairwise_le_insertByKey p (sortByKey rest) ih

theorem find?_insertByKey_eq (p : Nat × Rat) (id : Nat) (hp : p.1 = id) :
    ∀ l : List (Nat × Rat),
      (insertByKey p l).find? (fun q => q.1 == id) = some p := by
  intro l
  induction l with
  | nil =>
    unfold insertByKey
    rw [List.find?_cons]
    simp [hp]
  | cons q rest ih =>
    unfold insertByKey
    by_cases hq : q.1 < p.1
    · rw [if_pos hq, List.find?_cons]
      have : (q.1 == id) = false := by
        subst hp
        simp
        omega
      rw [this]
      exact ih
    · rw [if_neg hq, List.find?_cons]
      simp [hp]

theorem find?_insertByKey_ne (p : Nat × Rat) (id : Nat) (hp : p.1 ≠ id) :
    ∀ l : List (Nat × Rat),
      (insertByKey p l).find? (fun q => q.1 == id) = l.find? (fun q => q.1 == id) := by
  intro l
  induction l with
  | nil =>
    unfold insertByKey
    rw [List.find?_cons]
    have : (p.1 == id) = false := by simp [hp]
    rw [this]
  | cons q rest ih =>
    unfold insertByKey
    by_cases hq : q.1 < p.1
    · rw [if_pos hq, List.find?_cons, List.find?_cons]
      cases hpq : (q.1 == id)
      · exact ih
      · rfl
    · rw [if_neg hq, List.find?_cons]
      have : (p.1 == id) = false := by simp [hp]
      rw [this]

theorem find?_sortByKey (id : Nat) :
    ∀ v : List (Nat × Rat),
      (sortByKey v).find? (fun q => q.1 == id) = v.find? (fun q => q.1 == id) := by
  intro v
  induction v with
  | nil => rfl
  | cons p rest ih =>
    unfold sortByKey
    by_cases hp : p.1 = id
    · rw [find?_insertByKey_eq p id hp, List.find?_cons]
      simp [hp]
    · rw [find?_insertByKey_ne p id hp, ih, List.find?_cons]
      have : (p.1 == id) = false := by simp [hp]
      rw [this]

theorem mem_dedupGo (x : Nat × Rat) :
    ∀ (l : List (Nat × Rat)) (p : Nat × Rat), x ∈ dedupGo p l → x = p ∨ x ∈ l := by
  intro l
  induction l with
  | nil =>
    intro p hx
    exact Or.inl (List.mem_singleton.mp hx)
  | cons q rest ih =>
    intro p hx
    unfold dedupGo at hx
    by_cases heq : p.1 = q.1
    · rw [if_pos heq] at hx
      rcases ih p hx with h1 | h2
      · exact Or.inl h1
      · exact Or.inr (List.mem_cons_of_mem q h2)
    · rw [if_neg heq] at hx
      rcases List.mem_cons.mp hx with h1 | h2
      · exact Or.inl h1
      · rcases ih q h2 with h3 | h4
        · exact Or.inr (h3 ▸ List.mem_cons_self q rest)
        · exact Or.inr (List.mem_cons_of_mem q h4)

theorem find?_dedupGo (id : Nat) :
    ∀ (l : List (Nat × Rat)) (p : Nat × Rat),
      (dedupGo p l).find? (fun q => q.1 == id) = (p :: l).find? (fun q => q.1 == id) := by
  intro l
  induction l with
  | nil => intro p; rfl
  | cons q rest ih =>
    intro p
    unfold dedupGo
    by_cases heq : p.1 = q.1
    · rw [if_pos heq, ih p, List.find?_cons, List.find?_cons]
      cases hp : (p.1 == id)
      · rw [List.find?_cons]
        have hq : (q.1 == id) = false := by
          rw [← heq]
          exact hp
        rw [hq]
      · rfl
    · rw [if_neg heq, List.find?_cons, List.find?_cons]
      cases hp : (p.1 == id)
      · exact ih q
      · rfl

theorem find?_dedupByKey (id : Nat) :
    ∀ l : List (Nat × Rat),
      (dedupByKey l).find? (fun q => q.1 == id) = l.find? (fun q => q.1 == id) := by
  intro l
  cases l with
  | nil => rfl
  | cons p rest => exact find?_dedupGo id rest p

theorem pairwise_lt_dedupGo :
    ∀ (l : List (Nat × Rat)) (p : Nat × Rat),
      (p :: l).Pairwise (fun a c => a.1 ≤ c.1) →
      (dedupGo p l).Pairwise (fun a c => a.1 < c.1) := by
  intro l
  induction l with
  | nil => intro p _; exact List.pairwise_singleton _ p
  | cons q rest ih =>
    intro p h
    rw [List.pairwise_cons] at h
    unfold dedupGo
    by_cases heq : p.1 = q.1
    · rw [if_pos heq]
      apply ih p
      rw [List.pairwise_cons]
      constructor
      · intro x hx
        exact h.1 x (List.mem_cons_of_mem q hx)
      · exact (List.pairwise_cons.mp h.2).2
    · rw [if_neg heq]
      rw [List.pairwise_cons]
      constructor
      · intro x hx
        have hpq : p.1 < q.1 :=
          lt_of_le_of_ne (h.1 q (List.mem_cons_self q rest)) heq
        rcases mem_dedupGo x rest q hx with h1 | h2
        · exact h1 ▸ hpq
        · exact lt_of_lt_of_le hpq ((List.pairwise_cons.mp h.2).1 x h2)
      · exact ih q h.2

theorem pairwise_lt_dedupByKey :
    ∀ l : List (Nat × Rat), l.Pairwise (fun a c => a.1 ≤ c.1) →
      (dedupByKey l).Pairwise (fun a c => a.1 < c.1) := by
  intro l
  cases l with
  | nil => intro _; exact List.Pairwise.nil
  | cons p rest => exact pairwise_lt_dedupGo rest p

theorem find?_of_mem_pairwise_lt (id : Nat) (b : Rat) :
    ∀ l : List (Nat × Rat), l.Pairwise (fun a c => a.1 < c.1) → (id, b) ∈ l →
      l.find? (fun q => q.1 == id) = some (id, b) := by
  intro l
  induction l with
  | nil => intro _ hmem; exact absurd hmem (List.not_mem_nil _)
  | cons p rest ih =>
    intro h hmem
    rw [List.pairwise_cons] at h
    rw [List.find?_cons]
    rcases List.mem_cons.mp hmem with h1 | h2
    · subst h1
      simp
    · have hlt : p.1 < id := h.1 (id, b) h2
      have hp : (p.1 == id) = false := by
        simp
        omega
      rw [hp]
      exact ih h.2 h2

/-- C6: TokenBias::new stable-sorts by id ascending and keeps, per id, the
pair that appeared earliest in the input, producing a strictly-increasing
unique-id table: the result's ids form a strictly increasing chain, and a
pair (id, b) is in the table exactly when the earliest input pair with
that id is (id, b); in particular [(2, 0.5), (1, -1.0), (2, 0.9)] yields
exactly [(1, -1.0), (2, 0.5)]. -/
theorem c6_token_bias_new :
    (∀ v : List (Nat × Rat),
      ((TokenBias.new v).entries.Chain' (fun p q => p.1 < q.1)) ∧
      ∀ id b, ((id, b) ∈ (TokenBias.new v).entries ↔
        v.find? (fun q => q.1 == id) = some (id, b))) ∧
    (TokenBias.new [(2, 0.5), (1, -1), (2, 0.9)]).entries = [(1, -1), (2, 0.5)] := by
  constructor
  · intro v
    have hsorted := pairwise_le_sortByKey v
    have hlt := pairwise_lt_dedupByKey (sortByKey v) hsorted
    constructor
    · exact List.Pairwise.chain' hlt
    · intro id b
      constructor
      · intro hmem
        have hf := find?_of_mem_pairwise_lt id b (dedupByKey (sortByKey v)) hlt hmem
        rw [find?_dedupByKey, find?_sortByKey] at hf
        exact hf
      · intro hf
        have hf2 : (dedupByKey (sortByKey v)).find? (fun q => q.1 == id) = some (id, b) := by
          rw [find?_dedupByKey, find?_sortByKey]
          exact hf
        exact List.mem_of_find?_eq_some hf2
  · rfl

/-! ## GGUF claims -/

/-- C7: for every stream of at least 4 bytes whose first 4 bytes differ
from the magic constant, Gguf::load returns InvalidMagic carrying exactly
the bytes read, and no Container is produced (the result is an error, not
an ok value). -/
theorem c7_invalid_magic (sup : Nat → Bool) (input m : List Nat)
    (hlen : 4 ≤ input.length) (hm : input.take 4 = m) (hne : m ≠ ggufMagic) :
    Gguf.load sup input = .err (.invalidMagic m) := by
  have hrb : readBytes input 0 4 = .ok (m, 4) := by
    unfold readBytes
    rw [if_pos (by omega : 0 + 4 ≤ input.length), List.drop_zero, hm]
  have hct : containerTypeRead input 0 = .error (.invalidMagic m) := by
    unfold containerTypeRead
    rw [hrb]
    show (if m = ggufMagic then readU32 input 4 else .error (.invalidMagic m)) = _
    rw [if_neg hne]
  unfold Gguf.load
  rw [hct]

/-- C7 witness: a stream of four zero bytes is rejected with InvalidMagic
carrying those bytes. -/
theorem c7_witness :
    Gguf.load (fun c => c == 0) [0, 0, 0, 0] = .err (.invalidMagic [0, 0, 0, 0]) :=
  c7_invalid_magic (fun c => c == 0) [0, 0, 0, 0] [0, 0, 0, 0] (by decide) rfl (by decide)

/-- C5: for every successful Gguf::load, the tensor_data_position equals
pos + ((alignment - (pos mod alignment)) mod alignment), where pos is the
stream position after the last tensor descriptor and alignment is the
uint32 value of the metadata key "general.alignment" when present and of
that type, otherwise 32; and the rounding has the claimed values at pos 33
and 64 with alignment 32. -/
theorem c5_tensor_data_position :
    (∀ (sup : Nat → Bool) (input : List Nat) (g : Gguf),
      Gguf.load sup input = .ok g →
      ∃ version p0 tc p1 mc p2 p3 p4 a,
        containerTypeRead input 0 = .ok (version, p0) ∧
        (version = 1 ∨ version = 2) ∧
        readLength (version == 2) input p0 = .ok (tc, p1) ∧
        readLength (version == 2) input p1 = .ok (mc, p2) ∧
        readMetadataKVs (version == 2) input mc p2 [] = .ok (g.metadata, p3) ∧
        readTensorInfos sup (version == 2) input tc p3 [] = .ok (g.tensor_infos, p4) ∧
        a = ((hmLookup g.metadata gaKey).bind MetadataValue.as_uint32).getD 32 ∧
        a ≠ 0 ∧
        g.tensor_data_position = p4 + (a - p4 % a) % a) ∧
    alignedOffset 33 32 = 64 ∧ alignedOffset 64 32 = 64 := by
  refine ⟨?_, rfl, rfl⟩
  intro sup input g h
  unfold Gguf.load at h
  cases hct : containerTypeRead input 0 with
  | error e => rw [hct] at h; exact absurd h (by simp)
  | ok vp =>
    obtain ⟨version, p0⟩ := vp
    rw [hct] at h
    dsimp only at h
    by_cases hv : version = 1 ∨ version = 2
    · rw [if_pos hv] at h
      cases htc : readLength (version == 2) input p0 with
      | error e => rw [htc] at h; exact absurd h (by simp)
      | ok r1 =>
        obtain ⟨tc, p1⟩ := r1
        rw [htc] at h
        dsimp only at h
        cases hmc : readLength (version == 2) input p1 with
        | error e => rw [hmc] at h; exact absurd h (by simp)
        | ok r2 =>
          obtain ⟨mc, p2⟩ := r2
          rw [hmc] at h
          dsimp only at h
          cases hmd : readMetadataKVs (version == 2) input mc p2 [] with
          | error e => rw [hmd] at h; exact absurd h (by simp)
          | ok r3 =>
            obtain ⟨md, p3⟩ := r3
            rw [hmd] at h
            dsimp only at h
            cases hti : readTensorInfos sup (version == 2) input tc p3 [] with
            | error e => rw [hti] at h; exact absurd h (by simp)
            | ok r4 =>
              obtain ⟨tis, p4⟩ := r4
              rw [hti] at h
              dsimp only at h
              by_cases ha0 : ((hmLookup md gaKey).bind MetadataValue.as_uint32).getD 32 = 0
              · rw [if_pos ha0] at h
                exact absurd h (by simp)
              · rw [if_neg ha0] at h
                have hg := RResult.ok.inj h
                subst hg
                exact ⟨version, p0, tc, p1, mc, p2, p3, p4,
                  ((hmLookup md gaKey).bind MetadataValue.as_uint32).getD 32,
                  rfl, hv, htc, hmc, hmd, hti, rfl, ha0, rfl⟩
    · rw [if_neg hv] at h
      exact absurd h (by simp)

/-- c5stream: magic "GGUF", version 1, tensor count 0, metadata count 0;
the cursor ends at 16, which rounds up to 32 with the default alignment. -/
def c5stream : List Nat := [71, 71, 85, 70, 1, 0, 0, 0, 0, 0, 0, 0, 0, 0, 0, 0]

/-- C5 witness: the position theorem applied to a concrete successful
load: the minimal stream loads with tensor data at offset 32 =
16 + (32 - 16 mod 32) mod 32. -/
theorem c5_witness :
    (∃ version p0 tc p1 mc p2 p3 p4 a,
      containerTypeRead c5stream 0 = .ok (version, p0) ∧
      (version = 1 ∨ version = 2) ∧
      readLength (version == 2) c5stream p0 = .ok (tc, p1) ∧
      readLength (version == 2) c5stream p1 = .ok (mc, p2) ∧
      readMetadataKVs (version == 2) c5stream mc p2 [] =
        .ok ((Gguf.mk [] [] 32).metadata, p3) ∧
      readTensorInfos (fun c => c == 0) (version == 2) c5stream tc p3 [] =
        .ok ((Gguf.mk [] [] 32).tensor_infos, p4) ∧
      a = ((hmLookup (Gguf.mk [] [] 32).metadata gaKey).bind MetadataValue.as_uint32).getD 32 ∧
      a ≠ 0 ∧
      (Gguf.mk [] [] 32).tensor_data_position = p4 + (a - p4 % a) % a) ∧
    alignedOffset 33 32 = 64 ∧ alignedOffset 64 32 = 64 :=
  ⟨c5_tensor_data_position.1 (fun c => c == 0) c5stream (Gguf.mk [] [] 32) rfl,
    c5_tensor_data_position.2.1, c5_tensor_data_position.2.2⟩

/-- C8: a tensor descriptor whose 32-bit element-type code is not a member
of the accepted enumeration fails with UnsupportedElementType carrying the
tensor name and the raw code; the descriptor loop propagates that error
instead of skipping the tensor; and the whole load aborts with it, so no
Container is returned. -/
theorem c8_unsupported_element_type :
    (∀ (sup : Nat → Bool) (use64 : Bool) (input : List Nat)
       (pos p1 p2 p3 p4 dc code : Nat) (name dims : List Nat),
       readString use64 input pos = .ok (name, p1) →
       readU32 input p1 = .ok (dc, p2) →
       readLengthsN use64 input dc p2 = .ok (dims, p3) →
       readU32 input p3 = .ok (code, p4) →
       sup code = false →
       TensorInfo.read_name_value sup use64 input pos =
         .error (.unsupportedElementType name code)) ∧
    (∀ (sup : Nat → Bool) (use64 : Bool) (input : List Nat) (n pos : Nat)
       (acc : List (List Nat × TensorInfo)) (e : GgufLoadError),
       TensorInfo.read_name_value sup use64 input pos = .error e →
       readTensorInfos sup use64 input (n + 1) pos acc = .error e) ∧
    (∀ (sup : Nat → Bool) (input : List Nat) (version p0 tc p1 mc p2 p3 : Nat)
       (md : List (List Nat × MetadataValue)) (e : GgufLoadError),
       containerTypeRead input 0 = .ok (version, p0) →
       (version = 1 ∨ version = 2) →
       readLength (version == 2) input p0 = .ok (tc, p1) →
       readLength (version == 2) input p1 = .ok (mc, p2) →
       readMetadataKVs (version == 2) input mc p2 [] = .ok (md, p3) →
       readTensorInfos sup (version == 2) input tc p3 [] = .error e →
       Gguf.load sup input = .err e) := by
  refine ⟨?_, ?_, ?_⟩
  · intro sup use64 input pos p1 p2 p3 p4 dc code name dims hs hd hls hc hsup
    unfold TensorInfo.read_name_value
    rw [hs]
    dsimp only [Bind.bind, Except.bind]
    rw [hd]
    dsimp only
    rw [hls]
    dsimp only
    rw [hc]
    dsimp only
    rw [if_neg (by simp [hsup])]
  · intro sup use64 input n pos acc e h
    unfold readTensorInfos
    rw [h]
  · intro sup input version p0 tc p1 mc p2 p3 md e hct hv htc hmc hmd hti
    unfold Gguf.load
    rw [hct]
    dsimp only
    rw [if_pos hv, htc]
    dsimp only
    rw [hmc]
    dsimp only
    rw [hmd]
    dsimp only
    rw [hti]

/-- c8stream: magic, version 1, one tensor descriptor named "w" with zero
dimensions and element-type code 7, no metadata. -/
def c8stream : List Nat :=
  [71, 71, 85, 70, 1, 0, 0, 0, 1, 0, 0, 0, 0, 0, 0, 0,
   1, 0, 0, 0, 119, 0, 0, 0, 0, 7, 0, 0, 0]

/-- C8 witness: with only element-type code 0 accepted, the descriptor
named "w" carrying code 7 fails with UnsupportedElementType("w", 7) at the
descriptor level, in the descriptor loop, and for the whole load. -/
theorem c8_witness :
    TensorInfo.read_name_value (fun c => c == 0) false c8stream 16 =
      .error (.unsupportedElementType [119] 7) ∧
    readTensorInfos (fun c => c == 0) false c8stream 1 16 [] =
      .error (.unsupportedElementType [119] 7) ∧
    Gguf.load (fun c => c == 0) c8stream = .err (.unsupportedElementType [119] 7) := by
  refine ⟨?_, ?_, ?_⟩
  · exact c8_unsupported_element_type.1 (fun c => c == 0) false c8stream
      16 21 25 25 29 0 7 [119] [] rfl rfl rfl rfl rfl
  · exact c8_unsupported_element_type.2.1 (fun c => c == 0) false c8stream
      0 16 [] (.unsupportedElementType [119] 7) rfl
  · exact c8_unsupported_element_type.2.2 (fun c => c == 0) c8stream
      1 8 1 12 0 16 16 [] (.unsupportedElementType [119] 7)
      rfl (Or.inl rfl) rfl rfl rfl rfl

/-- C10: whenever Gguf::load reaches the tensor-data-position computation
— header, counts, metadata and all tensor descriptors parsed — with the
metadata key "general.alignment" bound to the uint32 value 0, the
computation takes a remainder by zero and the load panics instead of
returning any GgufLoadError. -/
theorem c10_zero_alignment_panics (sup : Nat → Bool) (input : List Nat)
    (version p0 tc p1 mc p2 p3 p4 : Nat)
    (md : List (List Nat × MetadataValue)) (tis : List (List Nat × TensorInfo))
    (hct : containerTypeRead input 0 = .ok (version, p0))
    (hv : version = 1 ∨ version = 2)
    (htc : readLength (version == 2) input p0 = .ok (tc, p1))
    (hmc : readLength (version == 2) input p1 = .ok (mc, p2))
    (hmd : readMetadataKVs (version == 2) input mc p2 [] = .ok (md, p3))
    (hga : hmLookup md gaKey = some (.uint32 0))
    (hti : readTensorInfos sup (version == 2) input tc p3 [] = .ok (tis, p4)) :
    Gguf.load sup input = .panicked := by
  unfold Gguf.load
  rw [hct]
  dsimp only
  rw [if_pos hv, htc]
  dsimp only
  rw [hmc]
  dsimp only
  rw [hmd]
  dsimp only
  rw [hti]
  dsimp only
  rw [hga]
  rfl

/-- c10stream: magic, version 1, no tensors, one metadata entry binding
"general.alignment" (17-byte key) to the uint32 value 0. -/
def c10stream : List Nat :=
  [71, 71, 85, 70, 1, 0, 0, 0, 0, 0, 0, 0, 1, 0, 0, 0, 17, 0, 0, 0] ++
    gaKey ++ [4, 0, 0, 0, 0]

/-- C10 witness: loading the concrete stream that sets general.alignment
to uint32 0 panics. -/
theorem c10_witness : Gguf.load (fun c => c == 0) c10stream = .panicked :=
  c10_zero_alignment_panics (fun c => c == 0) c10stream 1 8 0 12 1 16 42 42
    [(gaKey, .uint32 0)] [] rfl (Or.inl rfl) rfl rfl rfl rfl rfl
